import Mathlib

/-!
# Verification of `compute_f1_hash.py`

A shallow embedding of the alignment-and-scoring tool that compares two
model-inference logs.  JSON values are modelled by the inductive type `Json`
(numbers are modelled as integers; none of the verified properties depend on
float formatting).  Python dictionaries are modelled as association lists in
insertion order; `dict.get` on a non-dictionary raises `AttributeError` in
Python, which is modelled by the `Except Unit` monad: `.error ()` stands for
a raised exception.
-/

/-- A JSON value, as decoded from one log line. -/
inductive Json where
  | null : Json
  | bool (b : Bool) : Json
  | num (n : Int) : Json
  | str (s : String) : Json
  | arr (l : List Json) : Json
  | obj (l : List (String × Json)) : Json

/-- Python truthiness of a JSON value: `None`, `False`, `0`, `""`, `[]`,
and the empty dict are falsy, everything else is truthy. -/
def Json.isTruthy : Json → Bool
  | .null => false
  | .bool b => b
  | .num n => decide (n ≠ 0)
  | .str s => !s.isEmpty
  | .arr l => !l.isEmpty
  | .obj l => !l.isEmpty

/-- Is the value a JSON array (Python `isinstance(x, list)`)? -/
def Json.isArr : Json → Bool
  | .arr _ => true
  | _ => false

/-- Is the value a JSON object (Python dict)? -/
def Json.isObj : Json → Bool
  | .obj _ => true
  | _ => false

/-- Python truthiness of a value that may be `None` (`None` is falsy). -/
def optTruthy : Option Json → Bool
  | none => false
  | some v => v.isTruthy

/-- Python `x or d` for a possibly-`None` value `x`: the value itself when
truthy, otherwise the default `d`. -/
def pyOr (x : Option Json) (d : Json) : Json :=
  match x with
  | some v => if v.isTruthy then v else d
  | none => d

/-- Python `entry.get(k)`: `None` when the key is absent; raises
`AttributeError` when the receiver is not a dict. -/
def pyGet (j : Json) (k : String) : Except Unit (Option Json) :=
  match j with
  | .obj l => .ok (l.lookup k)
  | _ => .error ()

/-- Python `entry.get(k, d)`: the default `d` when the key is absent; raises
`AttributeError` when the receiver is not a dict. -/
def pyGetD (j : Json) (k : String) (d : Json) : Except Unit Json :=
  match j with
  | .obj l => .ok ((l.lookup k).getD d)
  | _ => .error ()

/-- One character of a JSON string, escaped the way `json.dumps` with
`ensure_ascii=False` escapes it: quote, backslash, the five short control
escapes, `\u00XX` for the remaining control characters, and every other
character (non-ASCII included) kept as-is. -/
def escapeChar (c : Char) : String :=
  if c = '"' then "\\\""
  else if c = '\\' then "\\\\"
  else if c = '\n' then "\\n"
  else if c = '\r' then "\\r"
  else if c = '\t' then "\\t"
  else if c = '\x08' then "\\b"
  else if c = '\x0c' then "\\f"
  else if c.toNat < 0x20 then
    let hexDigit : Nat → Char := fun n =>
      if n < 10 then Char.ofNat (48 + n) else Char.ofNat (87 + n)
    "\\u00" ++ String.mk [hexDigit (c.toNat / 16), hexDigit (c.toNat % 16)]
  else String.mk [c]

/-- Serialization of a JSON string literal, quotes included. -/
def dumpStringLit (s : String) : String :=
  "\"" ++ String.join (s.data.map escapeChar) ++ "\""

/-- Lexicographic strict comparison of two character lists by code point —
how Python compares strings. -/
def charListLtb : List Char → List Char → Bool
  | [], [] => false
  | [], _ :: _ => true
  | _ :: _, [] => false
  | a :: as, b :: bs =>
    if a < b then true else if b < a then false else charListLtb as bs

/-- `a <= b` on strings, computably: not `b < a`. -/
def strLeb (a b : String) : Bool := !charListLtb b.data a.data

/-- Insert a pair into a key-sorted association list, before the first
entry whose key is not smaller — the placement a stable ascending sort by
key gives it. -/
def insertPair {β : Type} (p : String × β) : List (String × β) → List (String × β)
  | [] => [p]
  | q :: qs => if strLeb p.1 q.1 then p :: q :: qs else q :: insertPair p qs

/-- Sort an association list by key, ascending and stable — the order in
which `json.dumps(..., sort_keys=True)` emits the members of an object
(any stable ascending sort by key produces this same list). -/
def sortPairs {β : Type} : List (String × β) → List (String × β)
  | [] => []
  | p :: ps => insertPair p (sortPairs ps)

mutual

/-- `json.dumps(v, ensure_ascii=False, sort_keys=True)`: canonical textual
form with object keys sorted lexicographically at every nesting level and
the default item separators `", "` and `": "`.  (Members of an object are
serialized before sorting; since the sort is stable and compares only keys,
this emits exactly the same text as sorting first.) -/
def dumps : Json → String
  | .null => "null"
  | .bool true => "true"
  | .bool false => "false"
  | .num n => toString n
  | .str s => dumpStringLit s
  | .arr l => "[" ++ String.intercalate ", " (dumpsList l) ++ "]"
  | .obj l =>
      "\x7b" ++ String.intercalate ", "
        ((sortPairs (dumpsPairs l)).map (fun q => dumpStringLit q.1 ++ ": " ++ q.2))
        ++ "\x7d"

/-- Serialize each element of a JSON array. -/
def dumpsList : List Json → List String
  | [] => []
  | x :: xs => dumps x :: dumpsList xs

/-- Serialize the value of each member of a JSON object, keeping the keys. -/
def dumpsPairs : List (String × Json) → List (String × String)
  | [] => []
  | p :: ps => (p.1, dumps p.2) :: dumpsPairs ps

end

mutual

/-- Canonical form of a JSON value: object members sorted by key at every
nesting level.  Two values are "equal as logical values regardless of key
order within nested objects" exactly when their canonical forms are equal. -/
def Json.canon : Json → Json
  | .null => .null
  | .bool b => .bool b
  | .num n => .num n
  | .str s => .str s
  | .arr l => .arr (canonList l)
  | .obj l => .obj (sortPairs (canonPairs l))

/-- Canonicalize each element of a JSON array. -/
def canonList : List Json → List Json
  | [] => []
  | x :: xs => x.canon :: canonList xs

/-- Canonicalize the value of each member of a JSON object. -/
def canonPairs : List (String × Json) → List (String × Json)
  | [] => []
  | p :: ps => (p.1, p.2.canon) :: canonPairs ps

end

mutual

/-- Well-formedness of a decoded JSON value: every object has pairwise
distinct keys.  Every value produced by `json.loads` satisfies this, because
Python dictionaries cannot hold a key twice. -/
def Json.wf : Json → Prop
  | .null => True
  | .bool _ => True
  | .num _ => True
  | .str _ => True
  | .arr l => wfList l
  | .obj l => (l.map Prod.fst).Nodup ∧ wfPairs l

/-- All elements of a JSON array are well-formed. -/
def wfList : List Json → Prop
  | [] => True
  | x :: xs => x.wf ∧ wfList xs

/-- All member values of a JSON object are well-formed. -/
def wfPairs : List (String × Json) → Prop
  | [] => True
  | p :: ps => p.2.wf ∧ wfPairs ps

end

/-! ## MD5

A complete implementation of the MD5 digest over byte lists, with 32-bit
words represented as natural numbers reduced modulo `2 ^ 32`.  This is the
digest `hashlib.md5` computes. -/

/-- UTF-8 encoding of one Unicode code point, as a list of bytes. -/
def utf8EncodeCp (n : Nat) : List Nat :=
  if n < 0x80 then [n]
  else if n < 0x800 then [0xC0 + n / 0x40, 0x80 + n % 0x40]
  else if n < 0x10000 then
    [0xE0 + n / 0x1000, 0x80 + (n / 0x40) % 0x40, 0x80 + n % 0x40]
  else
    [0xF0 + n / 0x40000, 0x80 + (n / 0x1000) % 0x40,
     0x80 + (n / 0x40) % 0x40, 0x80 + n % 0x40]

/-- UTF-8 encoding of a string (Python `s.encode("utf-8")`). -/
def strBytes (s : String) : List Nat :=
  s.data.flatMap (fun c => utf8EncodeCp c.toNat)

/-- The 64 per-round MD5 sine constants `K`. -/
def md5K : List Nat :=
  [0xd76aa478, 0xe8c7b756, 0x242070db, 0xc1bdceee,
   0xf57c0faf, 0x4787c62a, 0xa8304613, 0xfd469501,
   0x698098d8, 0x8b44f7af, 0xffff5bb1, 0x895cd7be,
   0x6b901122, 0xfd987193, 0xa679438e, 0x49b40821,
   0xf61e2562, 0xc040b340, 0x265e5a51, 0xe9b6c7aa,
   0xd62f105d, 0x02441453, 0xd8a1e681, 0xe7d3fbc8,
   0x21e1cde6, 0xc33707d6, 0xf4d50d87, 0x455a14ed,
   0xa9e3e905, 0xfcefa3f8, 0x676f02d9, 0x8d2a4c8a,
   0xfffa3942, 0x8771f681, 0x6d9d6122, 0xfde5380c,
   0xa4beea44, 0x4bdecfa9, 0xf6bb4b60, 0xbebfbc70,
   0x289b7ec6, 0xeaa127fa, 0xd4ef3085, 0x04881d05,
   0xd9d4d039, 0xe6db99e5, 0x1fa27cf8, 0xc4ac5665,
   0xf4292244, 0x432aff97, 0xab9423a7, 0xfc93a039,
   0x655b59c3, 0x8f0ccc92, 0xffeff47d, 0x85845dd1,
   0x6fa87e4f, 0xfe2ce6e0, 0xa3014314, 0x4e0811a1,
   0xf7537e82, 0xbd3af235, 0x2ad7d2bb, 0xeb86d391]

/-- The 64 per-round MD5 left-rotation amounts `s`. -/
def md5S : List Nat :=
  [7, 12, 17, 22, 7, 12, 17, 22, 7, 12, 17, 22, 7, 12, 17, 22,
   5, 9, 14, 20, 5, 9, 14, 20, 5, 9, 14, 20, 5, 9, 14, 20,
   4, 11, 16, 23, 4, 11, 16, 23, 4, 11, 16, 23, 4, 11, 16, 23,
   6, 10, 15, 21, 6, 10, 15, 21, 6, 10, 15, 21, 6, 10, 15, 21]

/-- Left-rotation of a 32-bit word (represented as a `Nat` below `2 ^ 32`). -/
def rotl32 (x s : Nat) : Nat :=
  ((x <<< s) % 4294967296) ||| (x >>> (32 - s))

/-- Bitwise complement of a 32-bit word. -/
def not32 (x : Nat) : Nat := x ^^^ 0xFFFFFFFF

/-- MD5 padding: append `0x80`, zero-pad to 56 bytes modulo 64, then append
the original length in bits as eight little-endian bytes. -/
def md5Pad (msg : List Nat) : List Nat :=
  let bitLen := (msg.length * 8) % (2 ^ 64)
  let padZeros := (56 + 64 - (msg.length + 1) % 64) % 64
  msg ++ [0x80] ++ List.replicate padZeros 0 ++
    (List.range 8).map (fun i => (bitLen >>> (8 * i)) % 256)


/-- The `i`-th little-endian 32-bit word of a 64-byte block. -/
def blockWord (block : List Nat) (i : Nat) : Nat :=
  block.getD (4 * i) 0 + (block.getD (4 * i + 1) 0) * 256 +
    (block.getD (4 * i + 2) 0) * 65536 + (block.getD (4 * i + 3) 0) * 16777216

/-- One of the 64 MD5 rounds: `i` is the round index, `M` the block words. -/
def md5Round (M : Nat → Nat) (st : Nat × Nat × Nat × Nat) (i : Nat) :
    Nat × Nat × Nat × Nat :=
  let (A, B, C, D) := st
  let (F, g) :=
    if i < 16 then ((B &&& C) ||| (not32 B &&& D), i)
    else if i < 32 then ((D &&& B) ||| (not32 D &&& C), (5 * i + 1) % 16)
    else if i < 48 then (B ^^^ C ^^^ D, (3 * i + 5) % 16)
    else (C ^^^ (B ||| not32 D), (7 * i) % 16)
  let F2 := (F + A + md5K.getD i 0 + M g) % 4294967296
  (D, (B + rotl32 F2 (md5S.getD i 0)) % 4294967296, B, C)

/-- Process one 64-byte block, updating the four state words. -/
def md5Block (st : Nat × Nat × Nat × Nat) (block : List Nat) :
    Nat × Nat × Nat × Nat :=
  let (a0, b0, c0, d0) := st
  let (A, B, C, D) := (List.range 64).foldl (md5Round (blockWord block)) st
  ((a0 + A) % 4294967296, (b0 + B) % 4294967296,
   (c0 + C) % 4294967296, (d0 + D) % 4294967296)

/-- The two lowercase hex digits of one byte. -/
def byteHex (b : Nat) : String :=
  let hexDigit : Nat → Char := fun n =>
    if n < 10 then Char.ofNat (48 + n) else Char.ofNat (87 + n)
  String.mk [hexDigit (b / 16 % 16), hexDigit (b % 16)]

/-- A 32-bit word rendered as eight hex digits, little-endian byte order. -/
def wordHexLE (w : Nat) : String :=
  byteHex (w % 256) ++ byteHex (w / 256 % 256) ++
    byteHex (w / 65536 % 256) ++ byteHex (w / 16777216 % 256)

/-- Consume a padded byte stream 64-byte block by 64-byte block, applying
`md5Block` to each complete block (the padded stream's length is a multiple
of 64, so no bytes remain buffered at the end). -/
def md5Process (buf : List Nat) (st : Nat × Nat × Nat × Nat) :
    List Nat → Nat × Nat × Nat × Nat
  | [] => st
  | b :: rest =>
    let buf2 := buf ++ [b]
    if buf2.length = 64 then md5Process [] (md5Block st buf2) rest
    else md5Process buf2 st rest

/-- The MD5 digest of a byte list, as a lowercase hexadecimal string. -/
def md5Bytes (msg : List Nat) : String :=
  let st := md5Process [] (0x67452301, 0xefcdab89, 0x98badcfe, 0x10325476)
    (md5Pad msg)
  wordHexLE st.1 ++ wordHexLE st.2.1 ++ wordHexLE st.2.2.1 ++ wordHexLE st.2.2.2

/-- `hashlib.md5(s.encode("utf-8")).hexdigest()`. -/
def md5hex (s : String) : String := md5Bytes (strBytes s)

/-! ## The program

Each definition below embeds the function of the same name from
`compute_f1_hash.py`.  Exceptions that Python would raise (attribute or key
errors on unexpectedly-shaped values) are modelled as `.error ()`. -/

/-- `extract_finish_reason(entry)`: the top-level `finish_reason` when
truthy; otherwise `response.choices[0].finish_reason` when present and
truthy (with falsy `response`, `choices` and `choices[0]` replaced by empty
defaults via `or`); otherwise `None`. -/
def extract_finish_reason (entry : Json) : Except Unit (Option Json) :=
  match pyGet entry "finish_reason" with
  | .error e => .error e
  | .ok fr =>
    if optTruthy fr then .ok fr
    else
      match pyGet entry "response" with
      | .error e => .error e
      | .ok respOpt =>
        let resp := pyOr respOpt (Json.obj [])
        match pyGet resp "choices" with
        | .error e => .error e
        | .ok chOpt =>
          let choices := pyOr chOpt (Json.arr [])
          if choices.isTruthy && choices.isArr then
            match choices with
            | .arr (c :: _) =>
              let ch0 := pyOr (some c) (Json.obj [])
              match pyGet ch0 "finish_reason" with
              | .error e => .error e
              | .ok fr2 => if optTruthy fr2 then .ok fr2 else .ok none
            | _ => .ok none
          else .ok none

/-- `compute_messages_hash(entry)`: the MD5 hex digest of the canonical
serialization of the composite key made of `request.messages` (default
`[]`), `request.tools` (default `None`) and `request.tool_choice` (default
`None`), with `request` itself defaulting to the empty dict. -/
def compute_messages_hash (entry : Json) : Except Unit String :=
  match pyGetD entry "request" (Json.obj []) with
  | .error e => .error e
  | .ok req =>
    match pyGetD req "messages" (Json.arr []) with
    | .error e => .error e
    | .ok messages =>
      match pyGetD req "tools" Json.null with
      | .error e => .error e
      | .ok tools =>
        match pyGetD req "tool_choice" Json.null with
        | .error e => .error e
        | .ok tool_choice =>
          let key_obj := Json.obj
            [("messages", messages), ("tools", tools), ("tool_choice", tool_choice)]
          .ok (md5hex (dumps key_obj))

/-- The loop of `build_map_by_messages_hash`: fold the rows in input order,
appending a `(hash, record)` entry when the hash is new and counting a
duplicate otherwise (first occurrence wins). -/
def buildLoop (mapping : List (String × Json)) (dups : Nat) :
    List Json → Except Unit (List (String × Json) × Nat)
  | [] => .ok (mapping, dups)
  | r :: rest =>
    match compute_messages_hash r with
    | .error e => .error e
    | .ok h =>
      if (mapping.lookup h).isSome then buildLoop mapping (dups + 1) rest
      else buildLoop (mapping ++ [(h, r)]) dups rest

/-- `build_map_by_messages_hash(rows)`: the alignment index (mapping from
fingerprint to first record with that fingerprint, in insertion order) and
the duplicate count. -/
def build_map_by_messages_hash (rows : List Json) :
    Except Unit (List (String × Json) × Nat) :=
  buildLoop [] 0 rows

/-- `is_tool_calls(fr)`: `fr` is a string equal to `"tool_calls"`. -/
def is_tool_calls (fr : Option Json) : Bool :=
  match fr with
  | some (.str s) => decide (s = "tool_calls")
  | _ => false

/-- The six counters accumulated by the classification loop of `main`. -/
structure Counters where
  TP : Nat
  FP : Nat
  FN : Nat
  TN : Nat
  count_finish_reason_tool_calls : Nat
  count_successful_tool_call : Nat
deriving DecidableEq

/-- The all-zero initial counters. -/
def Counters.zero : Counters := ⟨0, 0, 0, 0, 0, 0⟩

/-- Componentwise sum of counters. -/
def Counters.add (c d : Counters) : Counters :=
  ⟨c.TP + d.TP, c.FP + d.FP, c.FN + d.FN, c.TN + d.TN,
   c.count_finish_reason_tool_calls + d.count_finish_reason_tool_calls,
   c.count_successful_tool_call + d.count_successful_tool_call⟩

/-- One iteration of the classification loop of `main`, for the aligned
fingerprint `h`: look up both records, extract both finish reasons,
classify into exactly one of TP/FP/FN/TN, and update the two schema
counters when the candidate side triggered.  The result is the counter
increment contributed by `h`. -/
def classifyPair (ours_map off_map : List (String × Json)) (h : String) :
    Except Unit Counters :=
  match ours_map.lookup h with
  | none => .error ()
  | some ours =>
    match off_map.lookup h with
    | none => .error ()
    | some off =>
      match extract_finish_reason ours with
      | .error e => .error e
      | .ok fr_ours =>
        match extract_finish_reason off with
        | .error e => .error e
        | .ok fr_off =>
          let ours_tc := is_tool_calls fr_ours
          let off_tc := is_tool_calls fr_off
          let cm : Counters :=
            if ours_tc && off_tc then ⟨1, 0, 0, 0, 0, 0⟩
            else if ours_tc && !off_tc then ⟨0, 1, 0, 0, 0, 0⟩
            else if !ours_tc && off_tc then ⟨0, 0, 1, 0, 0, 0⟩
            else ⟨0, 0, 0, 1, 0, 0⟩
          if ours_tc then
            match pyGet ours "tool_calls_valid" with
            | .error e => .error e
            | .ok tcv =>
              .ok (Counters.add cm
                ⟨0, 0, 0, 0, 1, if optTruthy tcv then 1 else 0⟩)
          else .ok cm

/-- The classification loop of `main`: left fold of `classifyPair` over the
aligned fingerprints, accumulating counter increments. -/
def scoreAligned (ours_map off_map : List (String × Json)) :
    Counters → List String → Except Unit Counters
  | c, [] => .ok c
  | c, h :: t =>
    match classifyPair ours_map off_map h with
    | .error e => .error e
    | .ok d => scoreAligned ours_map off_map (Counters.add c d) t

/-- Insert a string into an ascending sorted list of strings. -/
def insertStr (s : String) : List String → List String
  | [] => [s]
  | t :: ts => if strLeb s t then s :: t :: ts else t :: insertStr s ts

/-- Ascending lexicographic sort of a list of fingerprints (Python
`sorted`). -/
def sortStrings : List String → List String
  | [] => []
  | s :: ss => insertStr s (sortStrings ss)

/-- `sorted(keys_ours & keys_off)`: the aligned fingerprints, in ascending
lexicographic order. -/
def alignedKeys (ours_map off_map : List (String × Json)) : List String :=
  sortStrings ((ours_map.map Prod.fst).filter
    (fun h => (off_map.lookup h).isSome))

/-- `precision`: `TP / (TP + FP)`, and `0.0` when `TP + FP == 0`.  Python
computes with floats; ratios are modelled as rationals. -/
def precision (c : Counters) : ℚ :=
  if c.TP + c.FP > 0 then (c.TP : ℚ) / ((c.TP : ℚ) + (c.FP : ℚ)) else 0

/-- `recall`: `TP / (TP + FN)`, and `0.0` when `TP + FN == 0`.  (Named
`recallMetric` here because `recall` is reserved by the proof library.) -/
def recallMetric (c : Counters) : ℚ :=
  if c.TP + c.FN > 0 then (c.TP : ℚ) / ((c.TP : ℚ) + (c.FN : ℚ)) else 0

/-- `f1`: `2·precision·recall / (precision + recall)`, and `0.0` when
`precision + recall == 0`. -/
def f1 (c : Counters) : ℚ :=
  if precision c + recallMetric c > 0 then
    2 * precision c * recallMetric c / (precision c + recallMetric c)
  else 0

/-- `schema_accuracy`: `count_successful_tool_call /
count_finish_reason_tool_calls`, and `0.0` when the denominator is `0`. -/
def schema_accuracy (c : Counters) : ℚ :=
  if c.count_finish_reason_tool_calls > 0 then
    (c.count_successful_tool_call : ℚ) / (c.count_finish_reason_tool_calls : ℚ)
  else 0

/-! ## Specification-side definitions

Definitions that restate what the specification's words describe, to be
compared with the embedded code above. -/

/-- The composite key the Fingerprint Function hashes when `request` is
entirely absent: all three sub-fields at their defaults. -/
def defaultKeyObj : Json :=
  Json.obj [("messages", Json.arr []), ("tools", Json.null), ("tool_choice", Json.null)]

/-- The three test-defining values `request.messages`, `request.tools` and
`request.tool_choice` of a record (with the documented defaults), or `none`
when the record is not shaped as the data model describes (the record or a
present `request` not being an object). -/
def reqFields (e : Json) : Option (Json × Json × Json) :=
  match e with
  | .obj l =>
    match (l.lookup "request").getD (Json.obj []) with
    | .obj rl =>
      some ((rl.lookup "messages").getD (Json.arr []),
            (rl.lookup "tools").getD Json.null,
            (rl.lookup "tool_choice").getD Json.null)
    | _ => none
  | _ => none

/-- The Finish-Reason Extractor as the specification describes it, in
priority order: a non-empty top-level `finish_reason`; otherwise a
non-empty `response.choices[0].finish_reason`; otherwise the
absence-marker. -/
def extractFinishReasonSpec (entry : Json) : Option Json :=
  match entry with
  | .obj l =>
    let top := l.lookup "finish_reason"
    if optTruthy top then top
    else
      match l.lookup "response" with
      | some (.obj rl) =>
        match rl.lookup "choices" with
        | some (.arr (c :: _)) =>
          match c with
          | .obj cl =>
            let fr := cl.lookup "finish_reason"
            if optTruthy fr then fr else none
          | _ => none
        | _ => none
      | _ => none
  | _ => none

/-- The record shapes on which the Finish-Reason Extractor completes
without raising: the record is an object whose `response` value, when
present and truthy, is an object, and whose first `choices` element, when
reached and truthy, is an object.  Every record matching the data model of
the specification (where `response` is an optional nested structure)
satisfies this. -/
def entryWF (entry : Json) : Bool :=
  match entry with
  | .obj l =>
    match l.lookup "response" with
    | none => true
    | some r =>
      if !r.isTruthy then true
      else
        match r with
        | .obj rl =>
          match rl.lookup "choices" with
          | none => true
          | some cv =>
            match pyOr (some cv) (Json.arr []) with
            | .arr (c :: _) => !c.isTruthy || c.isObj
            | _ => true
        | _ => false
  | _ => false

/-! ## Helper lemmas -/

theorem dumpsList_eq_map (l : List Json) : dumpsList l = l.map dumps := by
  induction l with
  | nil => rfl
  | cons x xs ih => simp [dumpsList, ih]

theorem dumpsPairs_eq_map (l : List (String × Json)) :
    dumpsPairs l = l.map (fun p => (p.1, dumps p.2)) := by
  induction l with
  | nil => rfl
  | cons p ps ih => simp [dumpsPairs, ih]

theorem canonList_eq_map (l : List Json) : canonList l = l.map Json.canon := by
  induction l with
  | nil => rfl
  | cons x xs ih => simp [canonList, ih]

theorem canonPairs_eq_map (l : List (String × Json)) :
    canonPairs l = l.map (fun p => (p.1, p.2.canon)) := by
  induction l with
  | nil => rfl
  | cons p ps ih => simp [canonPairs, ih]

theorem wfList_iff (l : List Json) : wfList l ↔ ∀ x ∈ l, x.wf := by
  induction l with
  | nil => simp [wfList]
  | cons x xs ih => simp [wfList, ih]

theorem wfPairs_iff (l : List (String × Json)) : wfPairs l ↔ ∀ p ∈ l, p.2.wf := by
  induction l with
  | nil => simp [wfPairs]
  | cons p ps ih => simp [wfPairs, ih]

/-- Structural induction principle for `Json` with membership hypotheses
for the nested lists. -/
theorem Json.myInduction (P : Json → Prop)
    (hnull : P .null) (hbool : ∀ b, P (.bool b))
    (hnum : ∀ n, P (.num n)) (hstr : ∀ s, P (.str s))
    (harr : ∀ l, (∀ x ∈ l, P x) → P (.arr l))
    (hobj : ∀ l, (∀ p ∈ l, P p.2) → P (.obj l)) : ∀ j, P j
  | .null => hnull
  | .bool b => hbool b
  | .num n => hnum n
  | .str s => hstr s
  | .arr l => harr l (fun x hx =>
      Json.myInduction P hnull hbool hnum hstr harr hobj x)
  | .obj l => hobj l (fun p hp =>
      Json.myInduction P hnull hbool hnum hstr harr hobj p.2)
termination_by j => sizeOf j
decreasing_by
  · have := List.sizeOf_lt_of_mem hx
    simp only [Json.arr.sizeOf_spec]
    omega
  · have h1 := List.sizeOf_lt_of_mem hp
    have h2 : sizeOf p.2 < sizeOf p := by
      obtain ⟨a, b⟩ := p
      simp only [Prod.mk.sizeOf_spec]
      omega
    simp only [Json.obj.sizeOf_spec]
    omega

/-- Two key-sorted association lists that are permutations of each other
and have pairwise distinct keys are equal. -/
theorem eq_of_perm_of_keySorted {β : Type} :
    ∀ (l₁ l₂ : List (String × β)), l₁.Perm l₂ →
      l₁.Pairwise (fun p q => p.1 ≤ q.1) →
      l₂.Pairwise (fun p q => p.1 ≤ q.1) →
      (l₁.map Prod.fst).Nodup → l₁ = l₂ := by
  intro l₁
  induction l₁ with
  | nil =>
    intro l₂ hp _ _ _
    exact (List.Perm.eq_nil hp.symm).symm
  | cons a t₁ ih =>
    intro l₂ hp hs₁ hs₂ hnd
    cases l₂ with
    | nil => exact absurd (List.Perm.eq_nil hp) (by simp)
    | cons b t₂ =>
      have hab : a = b := by
        by_contra hne
        have hbmem : b ∈ a :: t₁ := hp.symm.subset (List.mem_cons_self b t₂)
        have hamem : a ∈ b :: t₂ := hp.subset (List.mem_cons_self a t₁)
        have hbt : b ∈ t₁ := by
          cases List.mem_cons.mp hbmem with
          | inl h => exact absurd h.symm hne
          | inr h => exact h
        have hat : a ∈ t₂ := by
          cases List.mem_cons.mp hamem with
          | inl h => exact absurd h hne
          | inr h => exact h
        have h₁ : a.1 ≤ b.1 := (List.pairwise_cons.mp hs₁).1 b hbt
        have h₂ : b.1 ≤ a.1 := (List.pairwise_cons.mp hs₂).1 a hat
        have hkey : a.1 = b.1 := le_antisymm h₁ h₂
        have hnd' : (a.1 :: t₁.map Prod.fst).Nodup := by
          rw [List.map_cons] at hnd; exact hnd
        have hnd1 : a.1 ∉ t₁.map Prod.fst := (List.nodup_cons.mp hnd').1
        exact hnd1 (hkey ▸ List.mem_map_of_mem Prod.fst hbt)
      subst hab
      have htp : t₁.Perm t₂ := hp.cons_inv
      have hnd' : (a.1 :: t₁.map Prod.fst).Nodup := by
        rw [List.map_cons] at hnd; exact hnd
      have := ih t₂ htp (List.pairwise_cons.mp hs₁).2 (List.pairwise_cons.mp hs₂).2
        (List.nodup_cons.mp hnd').2
      rw [this]

theorem string_lt_iff_lex (a b : String) :
    a < b ↔ List.Lex (· < ·) a.data b.data := by
  rw [String.lt_iff_toList_lt]
  exact Iff.rfl

theorem charListLtb_iff : ∀ as bs : List Char,
    charListLtb as bs = true ↔ List.Lex (· < ·) as bs := by
  intro as
  induction as with
  | nil =>
    intro bs
    cases bs with
    | nil =>
      simp only [charListLtb]
      constructor
      · intro h; exact absurd h (by simp)
      · intro h; cases h
    | cons b bs => simp [charListLtb, List.Lex.nil]
  | cons a as ih =>
    intro bs
    cases bs with
    | nil =>
      simp only [charListLtb]
      constructor
      · intro h; exact absurd h (by simp)
      · intro h; cases h
    | cons b bs =>
      simp only [charListLtb]
      by_cases hab : a < b
      · simp only [hab, if_pos]
        constructor
        · intro _; exact List.Lex.rel hab
        · intro _; trivial
      · simp only [hab, if_neg, if_false]
        by_cases hba : b < a
        · simp only [hba, if_pos]
          constructor
          · intro h; exact absurd h (by simp)
          · intro h
            cases h with
            | rel h => exact absurd h hab
            | cons h => exact absurd hba (lt_irrefl a)
        · simp only [hba, if_neg, if_false]
          have heq : a = b := le_antisymm (not_lt.mp hba) (not_lt.mp hab)
          subst heq
          rw [ih bs]
          constructor
          · intro h; exact List.Lex.cons h
          · intro h
            cases h with
            | rel h => exact absurd h (lt_irrefl a)
            | cons h => exact h
theorem strLeb_iff (a b : String) : strLeb a b = true ↔ a ≤ b := by
  have hle : (a ≤ b) ↔ ¬ b < a := Iff.rfl
  rw [hle, string_lt_iff_lex, strLeb, Bool.not_eq_true', ← Bool.not_eq_true,
    charListLtb_iff]

theorem strLeb_of_not (a b : String) (h : ¬ strLeb a b = true) :
    strLeb b a = true := by
  cases le_total a b with
  | inl hab => exact absurd ((strLeb_iff a b).mpr hab) h
  | inr hba => exact (strLeb_iff b a).mpr hba

theorem insertPair_perm {β : Type} (p : String × β) :
    ∀ l : List (String × β), (insertPair p l).Perm (p :: l) := by
  intro l
  induction l with
  | nil => simp [insertPair]
  | cons q qs ih =>
    simp only [insertPair]
    by_cases h : strLeb p.1 q.1 = true
    · simp [h]
    · simp only [h, if_false, if_neg]
      exact (ih.cons q).trans (List.Perm.swap p q qs)

theorem mem_insertPair {β : Type} (p x : String × β) (l : List (String × β)) :
    x ∈ insertPair p l ↔ x = p ∨ x ∈ l := by
  rw [(insertPair_perm p l).mem_iff]
  simp

theorem insertPair_sorted {β : Type} (p : String × β) :
    ∀ l : List (String × β), l.Pairwise (fun p q => p.1 ≤ q.1) →
      (insertPair p l).Pairwise (fun p q => p.1 ≤ q.1) := by
  intro l
  induction l with
  | nil => simp [insertPair]
  | cons q qs ih =>
    intro hs
    obtain ⟨hq, hqs⟩ := List.pairwise_cons.mp hs
    simp only [insertPair]
    by_cases h : strLeb p.1 q.1 = true
    · simp only [h, if_pos]
      refine List.pairwise_cons.mpr ⟨?_, hs⟩
      intro x hx
      cases List.mem_cons.mp hx with
      | inl hxe => exact hxe ▸ (strLeb_iff _ _).mp h
      | inr hxm => exact le_trans ((strLeb_iff _ _).mp h) (hq x hxm)
    · simp only [h, if_false, if_neg]
      refine List.pairwise_cons.mpr ⟨?_, ih hqs⟩
      intro x hx
      cases (mem_insertPair p x qs).mp hx with
      | inl hxe => exact hxe ▸ (strLeb_iff _ _).mp (strLeb_of_not _ _ h)
      | inr hxm => exact hq x hxm

theorem sortPairs_perm {β : Type} : ∀ l : List (String × β), (sortPairs l).Perm l := by
  intro l
  induction l with
  | nil => simp [sortPairs]
  | cons p ps ih =>
    simp only [sortPairs]
    exact (insertPair_perm p (sortPairs ps)).trans (ih.cons p)

theorem sortPairs_sorted {β : Type} : ∀ l : List (String × β),
    (sortPairs l).Pairwise (fun p q => p.1 ≤ q.1) := by
  intro l
  induction l with
  | nil => simp [sortPairs]
  | cons p ps ih => exact insertPair_sorted p (sortPairs ps) ih

/-- Sorting by key is invariant under permutation of the input, provided
keys are pairwise distinct. -/
theorem sortPairs_congr {β : Type} (l₁ l₂ : List (String × β)) (h : l₁.Perm l₂)
    (hnd : (l₁.map Prod.fst).Nodup) : sortPairs l₁ = sortPairs l₂ :=
  eq_of_perm_of_keySorted _ _
    ((sortPairs_perm l₁).trans (h.trans (sortPairs_perm l₂).symm))
    (sortPairs_sorted l₁) (sortPairs_sorted l₂)
    (((sortPairs_perm l₁).map Prod.fst).nodup_iff.mpr hnd)

/-- Serialization only depends on the canonical form: for a well-formed
value, canonicalizing first does not change the serialized text. -/
theorem dumps_canon : ∀ j : Json, j.wf → dumps j.canon = dumps j := by
  intro j
  induction j using Json.myInduction with
  | hnull => intro _; rfl
  | hbool b => intro _; rfl
  | hnum n => intro _; rfl
  | hstr s => intro _; rfl
  | harr l ih =>
    intro hwf
    have hw : ∀ x ∈ l, x.wf := (wfList_iff l).mp (by simpa [Json.wf] using hwf)
    have : dumpsList (canonList l) = dumpsList l := by
      rw [canonList_eq_map, dumpsList_eq_map, dumpsList_eq_map, List.map_map]
      exact List.map_congr_left (fun x hx => ih x hx (hw x hx))
    simp [Json.canon, dumps, this]
  | hobj l ih =>
    intro hwf
    have hwf' : (l.map Prod.fst).Nodup ∧ wfPairs l := by simpa [Json.wf] using hwf
    have hw : ∀ p ∈ l, p.2.wf := (wfPairs_iff l).mp hwf'.2
    have hmapeq : (canonPairs l).map (fun p => (p.1, dumps p.2)) =
        dumpsPairs l := by
      rw [canonPairs_eq_map, dumpsPairs_eq_map, List.map_map]
      exact List.map_congr_left (fun p hp => by
        simp only [Function.comp_apply]
        rw [ih p hp (hw p hp)])
    have hperm : dumpsPairs (sortPairs (canonPairs l)) |>.Perm (dumpsPairs l) := by
      rw [dumpsPairs_eq_map]
      calc ((sortPairs (canonPairs l)).map (fun p => (p.1, dumps p.2))).Perm
            ((canonPairs l).map (fun p => (p.1, dumps p.2))) :=
              (sortPairs_perm (canonPairs l)).map _
        _ = dumpsPairs l := hmapeq
    have hnd : ((dumpsPairs (sortPairs (canonPairs l))).map Prod.fst).Nodup := by
      have h1 : (dumpsPairs (sortPairs (canonPairs l))).map Prod.fst |>.Perm
          ((dumpsPairs l).map Prod.fst) := hperm.map Prod.fst
      have h2 : (dumpsPairs l).map Prod.fst = l.map Prod.fst := by
        rw [dumpsPairs_eq_map, List.map_map]; rfl
      exact h1.nodup_iff.mpr (h2 ▸ hwf'.1)
    have key : sortPairs (dumpsPairs (sortPairs (canonPairs l))) =
        sortPairs (dumpsPairs l) := sortPairs_congr _ _ hperm hnd
    simp [Json.canon, dumps, key]

/-- On any record shaped as the data model describes, the Fingerprint
Function succeeds and hashes the canonical serialization of the composite
key built from the three extracted values. -/
theorem compute_messages_hash_eq (e m t c : Json)
    (h : reqFields e = some (m, t, c)) :
    compute_messages_hash e = .ok (md5hex (dumps (Json.obj
      [("messages", m), ("tools", t), ("tool_choice", c)]))) := by
  cases e with
  | obj l =>
    simp only [reqFields] at h
    split at h
    · next rl heq =>
      simp only [Option.some.injEq, Prod.mk.injEq] at h
      obtain ⟨hm, ht, hc⟩ := h
      simp only [compute_messages_hash, pyGetD, heq, hm, ht, hc]
    · next heq => simp at h
  | null => simp [reqFields] at h
  | bool b => simp [reqFields] at h
  | num n => simp [reqFields] at h
  | str s => simp [reqFields] at h
  | arr l => simp [reqFields] at h

/-- C1: For any two records whose `request.messages`, `request.tools` and
`request.tool_choice` values are equal as logical values (equal canonical
forms, i.e. regardless of key order within nested objects) and regardless
of all other fields of the record, the Fingerprint Function produces the
identical fingerprint string.  Well-formedness (pairwise distinct object
keys, true of every value `json.loads` produces) is assumed for the three
compared values. -/
theorem claim_C1_fingerprint_determinism
    (e₁ e₂ m₁ t₁ c₁ m₂ t₂ c₂ : Json)
    (h₁ : reqFields e₁ = some (m₁, t₁, c₁))
    (h₂ : reqFields e₂ = some (m₂, t₂, c₂))
    (hw₁ : m₁.wf ∧ t₁.wf ∧ c₁.wf) (hw₂ : m₂.wf ∧ t₂.wf ∧ c₂.wf)
    (hm : m₁.canon = m₂.canon) (ht : t₁.canon = t₂.canon)
    (hc : c₁.canon = c₂.canon) :
    compute_messages_hash e₁ = compute_messages_hash e₂ := by
  rw [compute_messages_hash_eq e₁ m₁ t₁ c₁ h₁,
      compute_messages_hash_eq e₂ m₂ t₂ c₂ h₂]
  have hkeys : (["messages", "tools", "tool_choice"] : List String).Nodup := by decide
  have wfK₁ : (Json.obj [("messages", m₁), ("tools", t₁), ("tool_choice", c₁)]).wf := by
    refine ⟨?_, hw₁.1, hw₁.2.1, hw₁.2.2, trivial⟩
    simp only [List.map_cons, List.map_nil]
    exact hkeys
  have wfK₂ : (Json.obj [("messages", m₂), ("tools", t₂), ("tool_choice", c₂)]).wf := by
    refine ⟨?_, hw₂.1, hw₂.2.1, hw₂.2.2, trivial⟩
    simp only [List.map_cons, List.map_nil]
    exact hkeys
  have hK : (Json.obj [("messages", m₁), ("tools", t₁), ("tool_choice", c₁)]).canon =
      (Json.obj [("messages", m₂), ("tools", t₂), ("tool_choice", c₂)]).canon := by
    simp [Json.canon, canonPairs, hm, ht, hc]
  have : dumps (Json.obj [("messages", m₁), ("tools", t₁), ("tool_choice", c₁)]) =
      dumps (Json.obj [("messages", m₂), ("tools", t₂), ("tool_choice", c₂)]) := by
    rw [← dumps_canon _ wfK₁, ← dumps_canon _ wfK₂, hK]
  rw [this]

/-- Witness for C1: two records sharing the same logical `tools` value with
different key order and differing in every other field get the same
fingerprint. -/
theorem claim_C1_fingerprint_determinism_witness :
    compute_messages_hash (Json.obj [("request", Json.obj [("tools",
        Json.obj [("a", Json.num 1), ("b", Json.num 2)])]),
      ("model", Json.str "m1")]) =
    compute_messages_hash (Json.obj [("request", Json.obj [("tools",
        Json.obj [("b", Json.num 2), ("a", Json.num 1)])]),
      ("finish_reason", Json.str "stop")]) :=
  claim_C1_fingerprint_determinism _ _
    (Json.arr []) (Json.obj [("a", Json.num 1), ("b", Json.num 2)]) Json.null
    (Json.arr []) (Json.obj [("b", Json.num 2), ("a", Json.num 1)]) Json.null
    rfl rfl
    ⟨trivial, ⟨by decide, trivial, trivial, trivial⟩, trivial⟩
    ⟨trivial, ⟨by decide, trivial, trivial, trivial⟩, trivial⟩
    rfl (by rfl) rfl

/-- Does the record hash to the fingerprint `k`?  (`false` when hashing
raises.) -/
def hashMatches (r : Json) (k : String) : Bool :=
  match compute_messages_hash r with
  | .ok h => h == k
  | .error _ => false

/-- Invariant of the builder loop: in the final mapping, each fingerprint
resolves to its entry in the accumulated mapping, or else to the first
remaining row hashing to it. -/
theorem buildLoop_lookup :
    ∀ (rows : List Json) (mapping : List (String × Json)) (dups : Nat)
      (m : List (String × Json)) (d : Nat),
      buildLoop mapping dups rows = .ok (m, d) →
      ∀ k, m.lookup k = (mapping.lookup k).or
        (rows.find? (fun r => hashMatches r k)) := by
  intro rows
  induction rows with
  | nil =>
    intro mapping dups m d h k
    simp only [buildLoop, Except.ok.injEq, Prod.mk.injEq] at h
    obtain ⟨h1, h2⟩ := h
    subst h1
    simp
  | cons r rest ih =>
    intro mapping dups m d h k
    simp only [buildLoop] at h
    cases hh : compute_messages_hash r with
    | error e => rw [hh] at h; simp at h
    | ok hr =>
      rw [hh] at h
      simp only at h
      by_cases hk : hr = k
      · subst hk
        have hmatch : hashMatches r hr = true := by simp [hashMatches, hh]
        by_cases hsome : (mapping.lookup hr).isSome
        · rw [if_pos hsome] at h
          obtain ⟨v, hv⟩ := Option.isSome_iff_exists.mp hsome
          rw [ih mapping (dups + 1) m d h hr, hv]
          simp
        · rw [if_neg hsome] at h
          have hnone : mapping.lookup hr = none :=
            Option.not_isSome_iff_eq_none.mp hsome
          have hfind2 : (r :: rest).find? (fun x => hashMatches x hr) = some r := by
            simp [List.find?, hmatch]
          rw [ih (mapping ++ [(hr, r)]) dups m d h hr, List.lookup_append, hnone,
            hfind2]
          simp [List.lookup]
      · have hmatch : hashMatches r k = false := by
          simp only [hashMatches, hh, beq_eq_false_iff_ne, ne_eq]
          exact hk
        have hfind : (r :: rest).find? (fun x => hashMatches x k) =
            rest.find? (fun x => hashMatches x k) :=
          List.find?_cons_of_neg _ (by simp [hmatch])
        have hsingle : ([(hr, r)] : List (String × Json)).lookup k = none := by
          have hbeq : (k == hr) = false := beq_eq_false_iff_ne.mpr (Ne.symm hk)
          simp [List.lookup, hbeq]
        by_cases hsome : (mapping.lookup hr).isSome
        · rw [if_pos hsome] at h
          rw [ih mapping (dups + 1) m d h k, hfind]
        · rw [if_neg hsome] at h
          rw [ih (mapping ++ [(hr, r)]) dups m d h k, List.lookup_append,
            hsingle, hfind, Option.or_none]

/-- C5: For every input sequence of records and every fingerprint, the
Alignment Index Builder retains exactly the first record (in input order)
hashing to that fingerprint: looking the fingerprint up in the produced
mapping is `List.find?` of the first matching row (and so `none` for
fingerprints of no row, and never a later duplicate, which is discarded). -/
theorem claim_C5_first_wins (rows : List Json) (m : List (String × Json))
    (d : Nat) (h : build_map_by_messages_hash rows = .ok (m, d)) :
    ∀ k, m.lookup k = rows.find? (fun r => hashMatches r k) := by
  intro k
  have := buildLoop_lookup rows [] 0 m d h k
  simpa using this

/-- Witness for C5: of two records with the same fingerprint (both lacking
`request`), the mapping retains the first, `Json.obj []`, which is also
what `find?` returns on the input rows. -/
theorem claim_C5_first_wins_witness :
    ([("18389eb6ba665464e0df4c65cd4e6ac4", Json.obj [])] :
        List (String × Json)).lookup "18389eb6ba665464e0df4c65cd4e6ac4" =
      [Json.obj [], Json.obj [("x", Json.num 1)]].find?
        (fun r => hashMatches r "18389eb6ba665464e0df4c65cd4e6ac4") :=
  claim_C5_first_wins [Json.obj [], Json.obj [("x", Json.num 1)]]
    [("18389eb6ba665464e0df4c65cd4e6ac4", Json.obj [])] 1 rfl
    "18389eb6ba665464e0df4c65cd4e6ac4"

/-- Size invariant of the builder loop. -/
theorem buildLoop_size :
    ∀ (rows : List Json) (mapping : List (String × Json)) (dups : Nat)
      (m : List (String × Json)) (d : Nat),
      buildLoop mapping dups rows = .ok (m, d) →
      m.length + d = mapping.length + dups + rows.length := by
  intro rows
  induction rows with
  | nil =>
    intro mapping dups m d h
    simp only [buildLoop, Except.ok.injEq, Prod.mk.injEq] at h
    obtain ⟨h1, h2⟩ := h
    subst h1; subst h2
    simp
  | cons r rest ih =>
    intro mapping dups m d h
    simp only [buildLoop] at h
    cases hh : compute_messages_hash r with
    | error e => rw [hh] at h; simp at h
    | ok hr =>
      rw [hh] at h
      simp only at h
      by_cases hsome : (mapping.lookup hr).isSome
      · rw [if_pos hsome] at h
        have := ih mapping (dups + 1) m d h
        simp only [List.length_cons]
        omega
      · rw [if_neg hsome] at h
        have := ih (mapping ++ [(hr, r)]) dups m d h
        simp only [List.length_append, List.length_cons, List.length_nil] at this ⊢
        omega

/-- C6: For every input sequence of N records, the Alignment Index Builder
satisfies: size of the resulting mapping plus the duplicate count equals N. -/
theorem claim_C6_index_size_invariant (rows : List Json)
    (m : List (String × Json)) (d : Nat)
    (h : build_map_by_messages_hash rows = .ok (m, d)) :
    m.length + d = rows.length := by
  have := buildLoop_size rows [] 0 m d h
  simpa using this

/-- Witness for C6: two duplicate records produce a one-entry mapping and
one counted duplicate, and 1 + 1 = 2. -/
theorem claim_C6_index_size_invariant_witness :
    ([("18389eb6ba665464e0df4c65cd4e6ac4", Json.obj [])] :
        List (String × Json)).length + 1 =
      ([Json.obj [], Json.obj []] : List Json).length :=
  claim_C6_index_size_invariant [Json.obj [], Json.obj []]
    [("18389eb6ba665464e0df4c65cd4e6ac4", Json.obj [])] 1 rfl

/-- A fingerprint has an entry in an association list exactly when it is
among its keys. -/
theorem lookup_isSome_iff (k : String) :
    ∀ l : List (String × Json), (l.lookup k).isSome ↔ k ∈ l.map Prod.fst := by
  intro l
  induction l with
  | nil => simp [List.lookup]
  | cons p t ih =>
    obtain ⟨a, b⟩ := p
    simp only [List.lookup, List.map_cons, List.mem_cons]
    by_cases hk : k = a
    · subst hk
      simp
    · have hbeq : (k == a) = false := beq_eq_false_iff_ne.mpr hk
      simp [hbeq, ih, hk]

theorem insertStr_perm (s : String) : ∀ l, (insertStr s l).Perm (s :: l) := by
  intro l
  induction l with
  | nil => simp [insertStr]
  | cons t ts ih =>
    simp only [insertStr]
    by_cases h : strLeb s t = true
    · simp [h]
    · simp only [h, if_false, if_neg]
      exact (ih.cons t).trans (List.Perm.swap s t ts)

theorem sortStrings_perm : ∀ l, (sortStrings l).Perm l := by
  intro l
  induction l with
  | nil => simp [sortStrings]
  | cons s ss ih =>
    simp only [sortStrings]
    exact (insertStr_perm s (sortStrings ss)).trans (ih.cons s)

/-- The aligned fingerprints are exactly those appearing among the keys of
both indices. -/
theorem mem_alignedKeys (m₁ m₂ : List (String × Json)) (k : String) :
    k ∈ alignedKeys m₁ m₂ ↔ k ∈ m₁.map Prod.fst ∧ k ∈ m₂.map Prod.fst := by
  unfold alignedKeys
  rw [(sortStrings_perm _).mem_iff, List.mem_filter, lookup_isSome_iff]

/-- What one successful iteration of the classification loop contributes:
exactly one of the four confusion-matrix counters is 1 and the rest are 0,
the candidate-triggered counter equals TP + FP, and the successful-call
counter is at most the candidate-triggered counter. -/
theorem classifyPair_ok (m₁ m₂ : List (String × Json)) (k : String) (d : Counters)
    (h : classifyPair m₁ m₂ k = .ok d) :
    (d.TP = 1 ∧ d.FP = 0 ∧ d.FN = 0 ∧ d.TN = 0 ∨
     d.TP = 0 ∧ d.FP = 1 ∧ d.FN = 0 ∧ d.TN = 0 ∨
     d.TP = 0 ∧ d.FP = 0 ∧ d.FN = 1 ∧ d.TN = 0 ∨
     d.TP = 0 ∧ d.FP = 0 ∧ d.FN = 0 ∧ d.TN = 1) ∧
    d.count_finish_reason_tool_calls = d.TP + d.FP ∧
    d.count_successful_tool_call ≤ d.count_finish_reason_tool_calls := by
  unfold classifyPair at h
  cases h₁ : m₁.lookup k with
  | none => rw [h₁] at h; simp at h
  | some ours =>
    rw [h₁] at h
    simp only at h
    cases h₂ : m₂.lookup k with
    | none => rw [h₂] at h; simp at h
    | some off =>
      rw [h₂] at h
      simp only at h
      cases h₃ : extract_finish_reason ours with
      | error e => rw [h₃] at h; simp at h
      | ok fr_ours =>
        rw [h₃] at h
        simp only at h
        cases h₄ : extract_finish_reason off with
        | error e => rw [h₄] at h; simp at h
        | ok fr_off =>
          rw [h₄] at h
          simp only at h
          by_cases ho : is_tool_calls fr_ours = true
          · rw [if_pos ho] at h
            cases h₅ : pyGet ours "tool_calls_valid" with
            | error e => rw [h₅] at h; simp at h
            | ok tcv =>
              rw [h₅] at h
              simp only [Except.ok.injEq] at h
              subst h
              by_cases hb : is_tool_calls fr_off = true
              · simp only [ho, hb, Bool.and_self, if_true, Counters.add]
                refine ⟨Or.inl (by simp), by simp, ?_⟩
                repeat' split
                all_goals first
                  | omega
                  | (dsimp only; omega)
              · have hb' : is_tool_calls fr_off = false :=
                  Bool.not_eq_true _ ▸ (Bool.eq_false_iff.mpr hb)
                simp only [ho, hb', Bool.and_false, Bool.not_false, Bool.and_true,
                  Bool.false_and, if_false, if_true, Counters.add]
                refine ⟨Or.inr (Or.inl (by simp)), by simp, ?_⟩
                repeat' split
                all_goals first
                  | omega
                  | (dsimp only; omega)
          · rw [if_neg ho] at h
            simp only [Except.ok.injEq] at h
            subst h
            have ho' : is_tool_calls fr_ours = false :=
              Bool.not_eq_true _ ▸ (Bool.eq_false_iff.mpr ho)
            by_cases hb : is_tool_calls fr_off = true
            · simp only [ho', hb, Bool.false_and, Bool.not_false, Bool.true_and,
                Bool.and_false, if_false, if_true]
              exact ⟨Or.inr (Or.inr (Or.inl (by simp))), by simp, by simp⟩
            · have hb' : is_tool_calls fr_off = false :=
                Bool.not_eq_true _ ▸ (Bool.eq_false_iff.mpr hb)
              simp only [ho', hb', Bool.false_and, Bool.and_false, if_false]
              exact ⟨Or.inr (Or.inr (Or.inr (by simp))), by simp, by simp⟩

/-- Each successful iteration of the classification loop adds exactly one
to the total of the four confusion-matrix counters. -/
theorem scoreAligned_sum (m₁ m₂ : List (String × Json)) :
    ∀ (l : List String) (c₀ c : Counters),
      scoreAligned m₁ m₂ c₀ l = .ok c →
      c.TP + c.FP + c.FN + c.TN = c₀.TP + c₀.FP + c₀.FN + c₀.TN + l.length := by
  intro l
  induction l with
  | nil =>
    intro c₀ c h
    simp only [scoreAligned, Except.ok.injEq] at h
    subst h
    simp
  | cons k t ih =>
    intro c₀ c h
    simp only [scoreAligned] at h
    cases hc : classifyPair m₁ m₂ k with
    | error e => rw [hc] at h; simp at h
    | ok d =>
      rw [hc] at h
      simp only at h
      have hd := (classifyPair_ok m₁ m₂ k d hc).1
      have hsum := ih (Counters.add c₀ d) c h
      simp only [Counters.add, List.length_cons] at hsum ⊢
      omega

/-- The classification loop preserves the invariants
`count_finish_reason_tool_calls = TP + FP` and
`count_successful_tool_call ≤ count_finish_reason_tool_calls`. -/
theorem scoreAligned_schema_inv (m₁ m₂ : List (String × Json)) :
    ∀ (l : List String) (c₀ c : Counters),
      scoreAligned m₁ m₂ c₀ l = .ok c →
      c₀.count_finish_reason_tool_calls = c₀.TP + c₀.FP →
      c₀.count_successful_tool_call ≤ c₀.count_finish_reason_tool_calls →
      c.count_finish_reason_tool_calls = c.TP + c.FP ∧
        c.count_successful_tool_call ≤ c.count_finish_reason_tool_calls := by
  intro l
  induction l with
  | nil =>
    intro c₀ c h h1 h2
    simp only [scoreAligned, Except.ok.injEq] at h
    subst h
    exact ⟨h1, h2⟩
  | cons k t ih =>
    intro c₀ c h h1 h2
    simp only [scoreAligned] at h
    cases hc : classifyPair m₁ m₂ k with
    | error e => rw [hc] at h; simp at h
    | ok d =>
      rw [hc] at h
      simp only at h
      have hd := (classifyPair_ok m₁ m₂ k d hc).2
      refine ih (Counters.add c₀ d) c h ?_ ?_ <;>
        simp only [Counters.add] <;> omega

/-- C2: For every pair of alignment indices, each aligned fingerprint
increments exactly one of TP, FP, FN, TN; after the loop their total
equals the size of the aligned set; and the aligned set consists exactly
of the fingerprints present in both indices, so fingerprints present in
only one index contribute to none of the four counters. -/
theorem claim_C2_confusion_matrix_completeness
    (m₁ m₂ : List (String × Json)) (c : Counters)
    (h : scoreAligned m₁ m₂ Counters.zero (alignedKeys m₁ m₂) = .ok c) :
    c.TP + c.FP + c.FN + c.TN = (alignedKeys m₁ m₂).length ∧
    (∀ k d, classifyPair m₁ m₂ k = .ok d →
      (d.TP = 1 ∧ d.FP = 0 ∧ d.FN = 0 ∧ d.TN = 0 ∨
       d.TP = 0 ∧ d.FP = 1 ∧ d.FN = 0 ∧ d.TN = 0 ∨
       d.TP = 0 ∧ d.FP = 0 ∧ d.FN = 1 ∧ d.TN = 0 ∨
       d.TP = 0 ∧ d.FP = 0 ∧ d.FN = 0 ∧ d.TN = 1)) ∧
    (∀ k, k ∈ alignedKeys m₁ m₂ ↔
      k ∈ m₁.map Prod.fst ∧ k ∈ m₂.map Prod.fst) := by
  refine ⟨?_, ?_, ?_⟩
  · have := scoreAligned_sum m₁ m₂ (alignedKeys m₁ m₂) Counters.zero c h
    simpa [Counters.zero] using this
  · intro k d hk
    exact (classifyPair_ok m₁ m₂ k d hk).1
  · intro k
    exact mem_alignedKeys m₁ m₂ k

/-- Witness for C2: one aligned fingerprint, classified FP, with total
TP + FP + FN + TN equal to the one-element aligned set. -/
theorem claim_C2_confusion_matrix_completeness_witness :
    (Counters.FP ⟨0, 1, 0, 0, 1, 1⟩ = 1 ∧
      scoreAligned
        [("h", Json.obj [("finish_reason", Json.str "tool_calls"),
          ("tool_calls_valid", Json.bool true)])]
        [("h", Json.obj [("finish_reason", Json.str "stop")])]
        Counters.zero (alignedKeys
          [("h", Json.obj [("finish_reason", Json.str "tool_calls"),
            ("tool_calls_valid", Json.bool true)])]
          [("h", Json.obj [("finish_reason", Json.str "stop")])]) =
        .ok ⟨0, 1, 0, 0, 1, 1⟩) ∧
    (0 : Nat) + 1 + 0 + 0 = (alignedKeys
      [("h", Json.obj [("finish_reason", Json.str "tool_calls"),
        ("tool_calls_valid", Json.bool true)])]
      [("h", Json.obj [("finish_reason", Json.str "stop")])]).length :=
  ⟨⟨rfl, rfl⟩, (claim_C2_confusion_matrix_completeness
    [("h", Json.obj [("finish_reason", Json.str "tool_calls"),
      ("tool_calls_valid", Json.bool true)])]
    [("h", Json.obj [("finish_reason", Json.str "stop")])]
    ⟨0, 1, 0, 0, 1, 1⟩ rfl).1⟩

/-- C9: After the classification loop, the candidate-triggered counter
equals TP + FP, and the successful-tool-call counter never exceeds it. -/
theorem claim_C9_trigger_counter_invariants
    (m₁ m₂ : List (String × Json)) (l : List String) (c : Counters)
    (h : scoreAligned m₁ m₂ Counters.zero l = .ok c) :
    c.count_finish_reason_tool_calls = c.TP + c.FP ∧
      c.count_successful_tool_call ≤ c.count_finish_reason_tool_calls :=
  scoreAligned_schema_inv m₁ m₂ l Counters.zero c h rfl (le_refl 0)

/-- Witness for C9: on a concrete run with one FP pair, the counters are
`⟨0, 1, 0, 0, 1, 1⟩`, with `1 = 0 + 1` and `1 ≤ 1`. -/
theorem claim_C9_trigger_counter_invariants_witness :
    Counters.count_finish_reason_tool_calls ⟨0, 1, 0, 0, 1, 1⟩ =
        Counters.TP ⟨0, 1, 0, 0, 1, 1⟩ + Counters.FP ⟨0, 1, 0, 0, 1, 1⟩ ∧
      Counters.count_successful_tool_call ⟨0, 1, 0, 0, 1, 1⟩ ≤
        Counters.count_finish_reason_tool_calls ⟨0, 1, 0, 0, 1, 1⟩ :=
  claim_C9_trigger_counter_invariants
    [("h", Json.obj [("finish_reason", Json.str "tool_calls"),
      ("tool_calls_valid", Json.bool true)])]
    [("h", Json.obj [("finish_reason", Json.str "stop")])]
    ["h"] ⟨0, 1, 0, 0, 1, 1⟩ rfl

/-- Adding counter increments is insensitive to the order of the last two
additions. -/
theorem Counters.add_right_comm (c a b : Counters) :
    Counters.add (Counters.add c a) b = Counters.add (Counters.add c b) a := by
  obtain ⟨c1, c2, c3, c4, c5, c6⟩ := c
  obtain ⟨a1, a2, a3, a4, a5, a6⟩ := a
  obtain ⟨b1, b2, b3, b4, b5, b6⟩ := b
  simp only [Counters.add, Counters.mk.injEq]
  omega

/-- The whole classification loop is invariant under permutation of the
aligned fingerprints: each iteration's increment depends only on its
fingerprint, and counter addition is commutative. -/
theorem scoreAligned_perm (m₁ m₂ : List (String × Json)) (l₁ l₂ : List String)
    (h : l₁.Perm l₂) :
    ∀ c : Counters, scoreAligned m₁ m₂ c l₁ = scoreAligned m₁ m₂ c l₂ := by
  induction h with
  | nil => intro c; rfl
  | cons x h ih =>
    intro c
    simp only [scoreAligned]
    cases hx : classifyPair m₁ m₂ x with
    | error e => rfl
    | ok d => exact ih (Counters.add c d)
  | swap x y t =>
    intro c
    simp only [scoreAligned]
    cases hx : classifyPair m₁ m₂ x with
    | error e =>
      cases hy : classifyPair m₁ m₂ y with
      | error f => rfl
      | ok dy => simp only [scoreAligned, hx]
    | ok dx =>
      cases hy : classifyPair m₁ m₂ y with
      | error f => simp only [scoreAligned, hy]
      | ok dy =>
        simp only [scoreAligned, hx, hy]
        rw [Counters.add_right_comm]
  | trans h₁ h₂ ih₁ ih₂ =>
    intro c
    exact (ih₁ c).trans (ih₂ c)

/-- C8: The aggregate values (the four confusion-matrix counts and the two
schema counters, from which every derived ratio of the Summary is
computed) do not depend on the order in which the aligned fingerprints are
processed: any permutation gives the same loop result, and in particular
processing in ascending lexicographic order gives the same result as any
other order. -/
theorem claim_C8_order_independence (m₁ m₂ : List (String × Json))
    (c : Counters) (l₁ l₂ : List String) (h : l₁.Perm l₂) :
    scoreAligned m₁ m₂ c l₁ = scoreAligned m₁ m₂ c l₂ ∧
      scoreAligned m₁ m₂ c (sortStrings l₁) = scoreAligned m₁ m₂ c l₁ :=
  ⟨scoreAligned_perm m₁ m₂ l₁ l₂ h c,
   scoreAligned_perm m₁ m₂ (sortStrings l₁) l₁ (sortStrings_perm l₁) c⟩

/-- Witness for C8: swapping the two aligned fingerprints of a concrete
run changes neither the loop result nor the effect of sorting. -/
theorem claim_C8_order_independence_witness :
    scoreAligned [("a", Json.obj []), ("b", Json.obj [("finish_reason",
        Json.str "tool_calls")])] [] Counters.zero ["b", "a"] =
      scoreAligned [("a", Json.obj []), ("b", Json.obj [("finish_reason",
        Json.str "tool_calls")])] [] Counters.zero ["a", "b"] ∧
    scoreAligned [("a", Json.obj []), ("b", Json.obj [("finish_reason",
        Json.str "tool_calls")])] [] Counters.zero (sortStrings ["b", "a"]) =
      scoreAligned [("a", Json.obj []), ("b", Json.obj [("finish_reason",
        Json.str "tool_calls")])] [] Counters.zero ["b", "a"] :=
  claim_C8_order_independence _ [] Counters.zero ["b", "a"] ["a", "b"]
    (List.Perm.swap "a" "b" [])

/-- C3: Every derived ratio is 0 when its denominator is 0 (modelled
totally — the embedded definitions raise no exception anywhere), and with
zero aligned records the loop yields the all-zero counters, on which all
four ratios are 0. -/
theorem claim_C3_zero_division_policy (c : Counters) :
    (c.TP + c.FP = 0 → precision c = 0) ∧
    (c.TP + c.FN = 0 → recallMetric c = 0) ∧
    (precision c + recallMetric c = 0 → f1 c = 0) ∧
    (c.count_finish_reason_tool_calls = 0 → schema_accuracy c = 0) ∧
    (∀ m₁ m₂ : List (String × Json),
      scoreAligned m₁ m₂ Counters.zero [] = .ok Counters.zero) ∧
    (precision Counters.zero = 0 ∧ recallMetric Counters.zero = 0 ∧
      f1 Counters.zero = 0 ∧ schema_accuracy Counters.zero = 0) := by
  refine ⟨?_, ?_, ?_, ?_, ?_, ?_⟩
  · intro h; simp [precision, h]
  · intro h; simp [recallMetric, h]
  · intro h; simp [f1, h]
  · intro h; simp [schema_accuracy, h]
  · intro m₁ m₂; rfl
  · refine ⟨by simp [precision, Counters.zero], by simp [recallMetric, Counters.zero],
      ?_, by simp [schema_accuracy, Counters.zero]⟩
    simp [f1, precision, recallMetric, Counters.zero]

/-- Witness for C3: at the all-zero counters every denominator is 0 and
every ratio evaluates to 0. -/
theorem claim_C3_zero_division_policy_witness :
    precision Counters.zero = 0 ∧ recallMetric Counters.zero = 0 ∧
      f1 Counters.zero = 0 ∧ schema_accuracy Counters.zero = 0 :=
  ⟨(claim_C3_zero_division_policy Counters.zero).1 rfl,
   (claim_C3_zero_division_policy Counters.zero).2.1 rfl,
   (claim_C3_zero_division_policy Counters.zero).2.2.1 (by
      rw [(claim_C3_zero_division_policy Counters.zero).1 rfl,
        (claim_C3_zero_division_policy Counters.zero).2.1 rfl]
      norm_num),
   (claim_C3_zero_division_policy Counters.zero).2.2.2.1 rfl⟩

/-- C10: A record counts as triggered exactly when its extracted finish
reason is the string `"tool_calls"`: absence, any other string, and any
non-string value are all classified as not triggered. -/
theorem claim_C10_trigger_literal (fr : Option Json) :
    is_tool_calls fr = true ↔ fr = some (Json.str "tool_calls") := by
  cases fr with
  | none => simp [is_tool_calls]
  | some v => cases v <;> simp [is_tool_calls]

/-- C7: Absence of any optional field is never an error.  With `request`
absent entirely, fingerprinting succeeds and hashes the all-defaults key
(empty messages, null tools, null tool_choice); with `request` present as
an object, fingerprinting succeeds whatever sub-fields are missing; with
`finish_reason` and `response` both absent, extraction succeeds with the
absence-marker; with `tool_calls_valid` absent, its lookup succeeds with
the falsy `None`. -/
theorem claim_C7_missing_fields_never_error (l : List (String × Json)) :
    (l.lookup "request" = none →
      compute_messages_hash (Json.obj l) = .ok (md5hex (dumps defaultKeyObj))) ∧
    (∀ rl, l.lookup "request" = some (Json.obj rl) →
      ∃ s, compute_messages_hash (Json.obj l) = .ok s) ∧
    (l.lookup "finish_reason" = none → l.lookup "response" = none →
      extract_finish_reason (Json.obj l) = .ok none) ∧
    (l.lookup "tool_calls_valid" = none →
      pyGet (Json.obj l) "tool_calls_valid" = .ok none ∧ optTruthy none = false) := by
  refine ⟨?_, ?_, ?_, ?_⟩
  · intro h
    simp [compute_messages_hash, pyGetD, h, defaultKeyObj, List.lookup]
  · intro rl h
    exact ⟨_, compute_messages_hash_eq (Json.obj l)
      ((rl.lookup "messages").getD (Json.arr []))
      ((rl.lookup "tools").getD Json.null)
      ((rl.lookup "tool_choice").getD Json.null)
      (by simp [reqFields, h])⟩
  · intro hfr hresp
    simp [extract_finish_reason, pyGet, hfr, hresp, pyOr, optTruthy,
      List.lookup, Json.isTruthy]
  · intro h
    exact ⟨by simp [pyGet, h], rfl⟩

/-- Witness for C7: the empty record (every optional field absent) is
fingerprinted as the all-defaults key and extracted to the absence-marker
without error. -/
theorem claim_C7_missing_fields_never_error_witness :
    compute_messages_hash (Json.obj []) = .ok (md5hex (dumps defaultKeyObj)) ∧
      extract_finish_reason (Json.obj []) = .ok none :=
  ⟨(claim_C7_missing_fields_never_error []).1 rfl,
   (claim_C7_missing_fields_never_error []).2.2.1 rfl rfl⟩

/-- C4: On every record shaped as the data model describes (`entryWF`),
the Finish-Reason Extractor returns exactly what the specification's
priority order prescribes: the non-empty top-level `finish_reason` first,
else a non-empty `response.choices[0].finish_reason`, else the
absence-marker — so the top-level shape always takes priority. -/
theorem claim_C4_finish_reason_priority (entry : Json)
    (hwf : entryWF entry = true) :
    extract_finish_reason entry = .ok (extractFinishReasonSpec entry) := by
  cases entry with
  | null => simp [entryWF] at hwf
  | bool b => simp [entryWF] at hwf
  | num n => simp [entryWF] at hwf
  | str s => simp [entryWF] at hwf
  | arr l => simp [entryWF] at hwf
  | obj l =>
    simp only [extract_finish_reason, extractFinishReasonSpec, pyGet]
    by_cases htop : optTruthy (l.lookup "finish_reason") = true
    · simp [htop]
    · simp only [htop, if_false, Bool.false_eq_true]
      cases hresp : l.lookup "response" with
      | none =>
        simp [hresp, pyOr, pyGet, optTruthy, List.lookup, Json.isTruthy]
      | some r =>
        by_cases hrt : r.isTruthy = true
        · cases r with
          | obj rl =>
            simp only [hresp, pyOr, hrt, if_true, pyGet]
            cases hch : rl.lookup "choices" with
            | none =>
              simp [hch, pyOr, Json.isTruthy]
            | some cv =>
              by_cases hcv : cv.isTruthy = true
              · cases cv with
                | arr cl =>
                  cases cl with
                  | nil => simp [Json.isTruthy] at hcv
                  | cons c rest =>
                    by_cases hct : c.isTruthy = true
                    · cases c with
                      | obj cl2 =>
                        simp only [hch, pyOr, hcv, if_true, Json.isTruthy,
                          Json.isArr, Bool.and_self, List.isEmpty_cons,
                          Bool.not_false, pyGet]
                        by_cases hfr2 : optTruthy (cl2.lookup "finish_reason") = true
                        · simp only [Json.isTruthy] at hct
                          simp [hct, hfr2]
                        · simp only [Json.isTruthy] at hct
                          simp [hct, hfr2]
                      | null => simp [Json.isTruthy] at hct
                      | bool b =>
                        exfalso
                        have := hwf
                        simp [entryWF, hresp, hrt, hch, hcv, pyOr,
                          Json.isObj] at this
                        rw [this] at hct
                        simp [Json.isTruthy] at hct
                      | num n =>
                        exfalso
                        have := hwf
                        simp [entryWF, hresp, hrt, hch, hcv, pyOr,
                          Json.isObj, hct] at this
                      | str s =>
                        exfalso
                        have := hwf
                        simp [entryWF, hresp, hrt, hch, hcv, pyOr,
                          Json.isObj, hct] at this
                      | arr l2 =>
                        exfalso
                        have := hwf
                        simp [entryWF, hresp, hrt, hch, hcv, pyOr,
                          Json.isObj, hct] at this
                    · cases c with
                      | obj cl2 =>
                        have hcl2 : cl2 = [] := by
                          cases cl2 with
                          | nil => rfl
                          | cons p ps => simp [Json.isTruthy] at hct
                        subst hcl2
                        simp [hch, pyOr, hcv, hct, Json.isTruthy, Json.isArr,
                          pyGet, optTruthy, List.lookup]
                      | null =>
                        simp [hch, pyOr, hcv, hct, Json.isTruthy, Json.isArr,
                          pyGet, optTruthy, List.lookup]
                      | bool b =>
                        have hb : b = false := by
                          cases b
                          · rfl
                          · simp [Json.isTruthy] at hct
                        subst hb
                        simp [hch, pyOr, hcv, hct, Json.isTruthy, Json.isArr,
                          pyGet, optTruthy, List.lookup]
                      | num n =>
                        have hn : n = 0 := by
                          by_cases hn : n = 0
                          · exact hn
                          · simp [Json.isTruthy, hn] at hct
                        subst hn
                        simp [hch, pyOr, hcv, hct, Json.isTruthy, Json.isArr,
                          pyGet, optTruthy, List.lookup]
                      | str s =>
                        simp only [Json.isTruthy] at hct
                        simp [hch, pyOr, hcv, hct, Json.isArr, Json.isTruthy,
                          pyGet, optTruthy, List.lookup]
                      | arr l2 =>
                        have hl2 : l2 = [] := by
                          cases l2 with
                          | nil => rfl
                          | cons p ps => simp [Json.isTruthy] at hct
                        subst hl2
                        simp [hch, pyOr, hcv, hct, Json.isTruthy, Json.isArr,
                          pyGet, optTruthy, List.lookup]
                | null => simp [Json.isTruthy] at hcv
                | bool b =>
                  simp only [Json.isTruthy] at hcv
                  simp [hch, pyOr, hcv, Json.isArr, Json.isTruthy]
                | num n =>
                  simp only [Json.isTruthy] at hcv
                  simp [hch, pyOr, hcv, Json.isArr, Json.isTruthy]
                | str s =>
                  simp only [Json.isTruthy] at hcv
                  simp [hch, pyOr, hcv, Json.isArr, Json.isTruthy]
                | obj ol =>
                  simp only [Json.isTruthy] at hcv
                  simp [hch, pyOr, hcv, Json.isArr, Json.isTruthy]
              · cases cv <;>
                  simp_all [pyOr, Json.isTruthy, Json.isArr, pyGet, optTruthy,
                    List.lookup]
          | null => simp [Json.isTruthy] at hrt
          | bool b =>
            exfalso
            have := hwf
            simp [entryWF, hresp, hrt] at this
          | num n =>
            exfalso
            have := hwf
            simp [entryWF, hresp, hrt] at this
          | str s =>
            exfalso
            have := hwf
            simp [entryWF, hresp, hrt] at this
          | arr l2 =>
            exfalso
            have := hwf
            simp [entryWF, hresp, hrt] at this
        · cases r <;>
            simp_all [pyOr, Json.isTruthy, pyGet, optTruthy, List.lookup,
              Json.isArr]

/-- Witness for C4: a record with only the nested raw-API shape extracts
to what the specification's priority order prescribes. -/
theorem claim_C4_finish_reason_priority_witness :
    extract_finish_reason (Json.obj [("response", Json.obj [("choices",
        Json.arr [Json.obj [("finish_reason", Json.str "stop")]])])]) =
      .ok (extractFinishReasonSpec (Json.obj [("response", Json.obj [("choices",
        Json.arr [Json.obj [("finish_reason", Json.str "stop")]])])])) :=
  claim_C4_finish_reason_priority _ rfl
